import Mathlib

/-!
Shallow embedding of the XR18 Stream Dock bridge (src/xrDock-bridge.js):
the OSC wire codec, the meters-blob decoder, the liveness / safe-state model
with its one-shot STALE recovery, and the client-facing message dispatcher
with its gating, registry and mute-polarity logic.  Times are modelled as
integers (JavaScript `Date.now()` milliseconds), byte buffers as `List Nat`
(Node `Buffer` contents), and client-supplied JSON numbers as integers or
rationals as appropriate.  Theorems `c1`..`c10` settle the frozen claims.
-/

namespace XrDock

/-! ## Safe-state model (xrDock-bridge.js lines 63-89) -/

/-- The three liveness states `SAFE_OFFLINE | SAFE_STALE | SAFE_LIVE`. -/
inductive SafeState where
  | OFFLINE
  | STALE
  | LIVE
deriving DecidableEq, Repr

/-- String form of a safe state (the JS code stores the state as a string). -/
def SafeState.str : SafeState → String
  | .OFFLINE => "OFFLINE"
  | .STALE => "STALE"
  | .LIVE => "LIVE"

/-- Tunable `OSC_OFFLINE_MS = 4000`: no OSC packets => OFFLINE. -/
def OSC_OFFLINE_MS : Int := 4000

/-- Tunable `OSC_LIVE_MS = 1500`: OSC seen recently => candidate for LIVE/STALE. -/
def OSC_LIVE_MS : Int := 1500

/-- Tunable `METERS_LIVE_MS = 1500`: meters seen recently => LIVE. -/
def METERS_LIVE_MS : Int := 1500

/-- Age of a receipt timestamp, as computed by
`const oscAge = lastOscRxAt ? (now - lastOscRxAt) : Infinity;`.
A zero timestamp (the initial value) is JS-falsy and yields `Infinity`,
modelled as `none`. -/
def ageOf (now last : Int) : Option Int :=
  if last = 0 then none else some (now - last)

/-- `age >= bound` where `age` may be `Infinity` (`none`). -/
def ageGe (age : Option Int) (bound : Int) : Bool :=
  match age with
  | none => true
  | some d => bound ≤ d

/-- `age <= bound` where `age` may be `Infinity` (`none`). -/
def ageLe (age : Option Int) (bound : Int) : Bool :=
  match age with
  | none => false
  | some d => d ≤ bound

/-- `computeSafeState(now)` as a pure function of the two receipt
timestamps `lastOscRxAt` and `lastMetersRxAt` (globals in the JS). -/
def computeSafeState (now lastOscRxAt lastMetersRxAt : Int) : SafeState :=
  let oscAge := ageOf now lastOscRxAt
  let metersAge := ageOf now lastMetersRxAt
  if ageGe oscAge OSC_OFFLINE_MS then .OFFLINE
  else if ageLe oscAge OSC_LIVE_MS && ageLe metersAge METERS_LIVE_MS then .LIVE
  else .STALE

/-- `maySendControl()`: control writes are allowed only when fully LIVE. -/
def maySendControl (lastSafeState : SafeState) : Bool :=
  lastSafeState = SafeState.LIVE

/-! ## One-shot STALE recovery state machine (lines 107-159)

The globals `lastSafeState`, `staleRecoveryAttempted` and
`staleRecoveryTimer` together with `updateAndBroadcastSafeState`,
`scheduleStaleRecoveryOnce`, `resetStaleRecoveryState` and the
`setTimeout` callback form a small state machine.  `staleRecoveryTimer`
is `some d` when a recovery timer is pending with delay `d` ms. -/

/-- The recovery-relevant mutable state of the bridge. -/
structure RecoverySt where
  lastSafeState : SafeState
  staleRecoveryAttempted : Bool
  staleRecoveryTimer : Option Nat
deriving DecidableEq, Repr

/-- Initial values of the globals at module load. -/
def initialRecoverySt : RecoverySt :=
  { lastSafeState := .OFFLINE, staleRecoveryAttempted := false,
    staleRecoveryTimer := none }

/-- `scheduleStaleRecoveryOnce()`: no-op if already attempted this episode;
otherwise set the guard, clear any pending timer, and schedule a new
250 ms timer. -/
def scheduleStaleRecoveryOnce (st : RecoverySt) : RecoverySt :=
  if st.staleRecoveryAttempted then st
  else { st with staleRecoveryAttempted := true, staleRecoveryTimer := some 250 }

/-- `resetStaleRecoveryState()`: clear the per-episode guard and cancel
any pending recovery timer. -/
def resetStaleRecoveryState (st : RecoverySt) : RecoverySt :=
  { st with staleRecoveryAttempted := false, staleRecoveryTimer := none }

/-- `updateAndBroadcastSafeState` restricted to its state effects: when the
computed state `next` differs from `lastSafeState`, store it and either
schedule the one-shot recovery (on entering STALE) or reset the recovery
state (on entering LIVE/OFFLINE).  A redundant recomputation is a no-op. -/
def updateSafeState (st : RecoverySt) (next : SafeState) : RecoverySt :=
  if next = st.lastSafeState then st
  else
    let st1 : RecoverySt := { st with lastSafeState := next }
    if next = .STALE then scheduleStaleRecoveryOnce st1
    else resetStaleRecoveryState st1

/-- The `setTimeout` callback of `scheduleStaleRecoveryOnce` firing: it
clears the timer handle and runs the recovery action (re-send
`/xremotenfb`, renew the meters subscription) only if the state is still
STALE.  The returned Bool is `true` when the recovery action ran. -/
def recoveryTimerFire (st : RecoverySt) : RecoverySt × Bool :=
  match st.staleRecoveryTimer with
  | none => (st, false)
  | some _ =>
    let st1 : RecoverySt := { st with staleRecoveryTimer := none }
    if st1.lastSafeState ≠ .STALE then (st1, false)
    else (st1, true)

/-- Events driving the recovery state machine: a safe-state recomputation
delivering the freshly computed state, or the pending recovery timer
firing. -/
inductive RecEv where
  | update (next : SafeState)
  | fire
deriving DecidableEq, Repr

/-- One step of the recovery machine; the Bool records whether the
recovery action ran during this step. -/
def recStep (st : RecoverySt) : RecEv → RecoverySt × Bool
  | .update next => (updateSafeState st next, false)
  | .fire => recoveryTimerFire st

/-- Run a sequence of events, counting how many times the recovery action
ran. -/
def recRun (st : RecoverySt) : List RecEv → RecoverySt × Nat
  | [] => (st, 0)
  | e :: es =>
    let (st1, fired) := recStep st e
    let (st2, n) := recRun st1 es
    (st2, (if fired then 1 else 0) + n)

/-- An event list that keeps the machine inside a single STALE episode:
every recomputation still yields STALE (timer fires are allowed). -/
def staysStale (evs : List RecEv) : Prop :=
  ∀ e ∈ evs, e = RecEv.update .STALE ∨ e = RecEv.fire

/-! ## Minimal OSC codec (lines 291-415)

Buffers are byte lists.  OSC argument values are tagged; a float argument
is represented by the 32-bit pattern `writeFloatBE` stores for it (the
JS double <-> binary32 conversion itself lives outside the shallow
embedding; the claims compare floats only up to float tolerance, which
this bit-level view refines to exact equality of patterns). -/

/-- A decoded OSC argument value, one constructor per supported type tag. -/
inductive OscVal where
  | float (bits : Nat)
  | int (v : Int)
  | str (s : List Nat)
  | blob (b : List Nat)
deriving DecidableEq, Repr

/-- A decoded OSC message `{ address, args }`. -/
structure OscMsg where
  address : List Nat
  args : List OscVal
deriving DecidableEq, Repr

/-- `pad4(len)`: bytes needed to reach the next multiple of 4. -/
def pad4 (len : Nat) : Nat :=
  let r := len % 4
  if r = 0 then 0 else 4 - r

/-- Round `n` up to the next multiple of 4 (the decoder's
`while (end % 4 !== 0) end++;` loops). -/
def align4 (n : Nat) : Nat := n + pad4 n

/-- `oscString(str)`: the string's bytes, a terminating NUL, and zero
padding to a 4-byte boundary (`Buffer.alloc` zero-fills). -/
def oscString (s : List Nat) : List Nat :=
  s ++ [0] ++ List.replicate (pad4 (s.length + 1)) 0

/-- Big-endian bytes of a 32-bit word (`writeInt32BE` / `writeFloatBE`). -/
def word32BytesBE (w : Nat) : List Nat :=
  [w / 2 ^ 24 % 256, w / 2 ^ 16 % 256, w / 2 ^ 8 % 256, w % 256]

/-- Two's-complement 32-bit pattern of an int (`writeInt32BE` requires the
value to be in range; out-of-range values would throw in Node). -/
def int32ToWord (v : Int) : Nat := (v % 2 ^ 32).toNat

/-- Signed value of a 32-bit pattern (`readInt32BE`). -/
def int32OfWord (w : Nat) : Int :=
  if w % 2 ^ 32 < 2 ^ 31 then ((w % 2 ^ 32 : Nat) : Int)
  else ((w % 2 ^ 32 : Nat) : Int) - 2 ^ 32

/-- Bit patterns that are JS-falsy as float values: `-0.0` and every NaN.
`writeFloatBE(Number(v) || 0, 0)` replaces such a value by `+0.0`. -/
def jsFalsyFloatBits (bits : Nat) : Bool :=
  bits % 2 ^ 32 = 2 ^ 31 || (bits / 2 ^ 23 % 256 = 255 && bits % 2 ^ 23 ≠ 0)

/-- The 32-bit pattern actually stored for a float argument, after the
`Number(v) || 0` coercion. -/
def jsFloatWriteBits (bits : Nat) : Nat :=
  if jsFalsyFloatBits bits then 0 else bits % 2 ^ 32

/-- Serialize one argument per its type character (`f`=102, `i`=105,
`s`=115; an unknown type stores a 4-byte zero chunk).  A missing value
(`values[i]` undefined) coerces to 0 for numeric tags; the claims only
concern matching value lists, where this default is never used. -/
def encodeArg (t : Nat) (v : Option OscVal) : List Nat :=
  if t = 102 then
    word32BytesBE (match v with
      | some (.float bits) => jsFloatWriteBits bits
      | _ => 0)
  else if t = 105 then
    word32BytesBE (match v with
      | some (.int n) => int32ToWord n
      | _ => 0)
  else if t = 115 then
    oscString (match v with
      | some (.str s) => s
      | _ => [])
  else List.replicate 4 0

/-- Serialize the argument section: `values[i]` per `types[i]`. -/
def encodeArgs : List Nat → List OscVal → List Nat
  | [], _ => []
  | t :: ts, vs => encodeArg t vs.head? ++ encodeArgs ts vs.tail

/-- `encodeOscMessage(address, types, values)`: padded address, padded
comma-prefixed type tag (comma = byte 44), then the serialized args. -/
def encodeOscMessage (address : List Nat) (types : List Nat)
    (values : List OscVal) : List Nat :=
  oscString address ++ oscString (44 :: types) ++ encodeArgs types values

/-- Byte fetch `buf[i]`, `none` out of bounds. -/
def byteAt (buf : List Nat) (i : Nat) : Option Nat := buf.get? i

/-- `readInt32BE`/`readFloatBE` bit fetch: 4 big-endian bytes at `off`;
`none` models the `ERR_OUT_OF_RANGE` throw when fewer than 4 bytes
remain.  Bytes are masked to 8 bits as in a Node `Buffer`. -/
def readWord32BE (buf : List Nat) (off : Nat) : Option Nat :=
  match byteAt buf off, byteAt buf (off + 1), byteAt buf (off + 2),
      byteAt buf (off + 3) with
  | some a, some b, some c, some d =>
    some ((a % 256) * 2 ^ 24 + (b % 256) * 2 ^ 16 + (c % 256) * 2 ^ 8 + d % 256)
  | _, _, _, _ => none

/-- The decoder's `readString()` at an absolute offset: scan to the first
NUL (or the end of the buffer), skip the NUL and pad to a 4-byte
boundary.  `toString('ascii')` strips the high bit of each byte. -/
def readStringAt (buf : List Nat) (off : Nat) : List Nat × Nat :=
  let s := (buf.drop off).takeWhile (fun b => b != 0)
  ((s.map (· % 128)), align4 (off + s.length + 1))

/-- The argument loop of `decodeOscMessage`, at absolute offset `off`.
`Except.error ()` marks an out-of-bounds buffer read that would throw in
Node; `Except.ok` carries the argument list parsed so far (`break`
returns whatever was safely parsed). -/
def decodeArgs (buf : List Nat) : List Nat → Nat → Except Unit (List OscVal)
  | [], _ => .ok []
  | t :: ts, off =>
    if t = 102 then
      if off + 4 > buf.length then .ok []
      else
        match readWord32BE buf off with
        | none => .error ()
        | some w => (decodeArgs buf ts (off + 4)).map (fun l => .float w :: l)
    else if t = 105 then
      if off + 4 > buf.length then .ok []
      else
        match readWord32BE buf off with
        | none => .error ()
        | some w =>
          (decodeArgs buf ts (off + 4)).map (fun l => .int (int32OfWord w) :: l)
    else if t = 115 then
      let s := (buf.drop off).takeWhile (fun b => b != 0)
      let off2 := align4 (off + s.length + 1)
      (decodeArgs buf ts off2).map (fun l => .str (s.map (· % 128)) :: l)
    else if t = 98 then
      if off + 4 > buf.length then .ok []
      else
        match readWord32BE buf off with
        | none => .error ()
        | some w =>
          let blobSize := int32OfWord w
          if blobSize < 0 ∨ (off + 4 : Int) + blobSize > buf.length then .ok []
          else
            let bn := blobSize.toNat
            let blob := (buf.drop (off + 4)).take bn
            (decodeArgs buf ts (align4 (off + 4 + bn))).map (fun l => .blob blob :: l)
    else
      if off + 4 > buf.length then .ok []
      else decodeArgs buf ts (off + 4)

/-- `decodeOscMessage(buf)`.  `.ok none` is the JS `null` return, `.ok
(some msg)` a decoded message, `.error ()` an uncaught buffer-read throw
(which claim C4 proves unreachable). -/
def decodeOscMessage (buf : List Nat) : Except Unit (Option OscMsg) :=
  if buf.length < 4 then .ok none
  else
    let p1 := readStringAt buf 0
    let address := p1.1
    if address = [] then .ok none
    else if p1.2 ≥ buf.length then .ok (some ⟨address, []⟩)
    else
      let p2 := readStringAt buf p1.2
      let typeTag := p2.1
      if typeTag = [] ∨ typeTag.head? ≠ some 44 then .ok (some ⟨address, []⟩)
      else
        (decodeArgs buf typeTag.tail p2.2).map (fun args => some ⟨address, args⟩)

/-- The values an encoded-and-decoded argument survives unchanged: a
supported tag paired with an in-range value free of the lossy JS
coercions (NUL-free 7-bit strings, 32-bit ints, float patterns other
than `-0.0`/NaN). -/
def argMatches (t : Nat) (v : OscVal) : Bool :=
  match v with
  | .float bits => t = 102 && bits < 2 ^ 32 && !jsFalsyFloatBits bits
  | .int n => t = 105 && (-(2 ^ 31) ≤ n && n < 2 ^ 31)
  | .str s => t = 115 && s.all (fun b => b != 0 && b < 128)
  | .blob _ => false

/-- A type-tag string and a value list match pairwise. -/
def argsMatch : List Nat → List OscVal → Bool
  | [], [] => true
  | t :: ts, v :: vs => argMatches t v && argsMatch ts vs
  | _, _ => false

/-! ## Meter blob decoding (lines 608-636) -/

/-- `readInt16LE(off)`: two little-endian bytes as a signed 16-bit value;
`none` models the out-of-range throw. -/
def readInt16LE (buf : List Nat) (off : Nat) : Option Int :=
  match byteAt buf off, byteAt buf (off + 1) with
  | some lo, some hi =>
    let w := lo % 256 + hi % 256 * 256
    some (if w < 2 ^ 15 then (w : Int) else (w : Int) - 2 ^ 16)
  | _, _ => none

/-- `readInt32LE(off)`: four little-endian bytes as a signed 32-bit value;
`none` models the out-of-range throw. -/
def readInt32LE (buf : List Nat) (off : Nat) : Option Int :=
  match byteAt buf off, byteAt buf (off + 1), byteAt buf (off + 2),
      byteAt buf (off + 3) with
  | some a, some b, some c, some d =>
    some (int32OfWord (a % 256 + b % 256 * 256 + c % 256 * 2 ^ 16 + d % 256 * 2 ^ 24))
  | _, _, _, _ => none

/-- The sample-reading loop of `decodeMetersBlob`:
`for (let i = 0; i < capped; i++) values[i] = data.readInt16LE(4 + i * 2);`
reading `k` further samples starting at loop index `i`. -/
def readSamples (data : List Nat) : Nat → Nat → Option (List Int)
  | _, 0 => some []
  | i, k + 1 =>
    match readInt16LE data (4 + i * 2), readSamples data (i + 1) k with
    | some v, some vs => some (v :: vs)
    | _, _ => none

/-- Result of `decodeMetersBlob`: the declared count, the clamped usable
count, and the decoded samples. -/
structure MetersResult where
  count : Int
  slotCount : Nat
  values : List Int
deriving DecidableEq, Repr

/-- The body of `decodeMetersBlob(data)` before its `try`/`catch`:
`.error ()` marks a buffer read that would throw (claim C5 proves it
unreachable). -/
def decodeMetersBlobRun (data : List Nat) : Except Unit (Option MetersResult) :=
  if data.length < 4 then .ok none
  else
    match readInt32LE data 0 with
    | none => .error ()
    | some count =>
      if count ≤ 0 then .ok none
      else
        let available : Int := ((data.length - 4) / 2 : Nat)
        let slotCount : Int := min count available
        if slotCount ≤ 0 then .ok none
        else
          let capped : Nat := (min slotCount 4096).toNat
          match readSamples data 0 capped with
          | none => .error ()
          | some values => .ok (some ⟨count, capped, values⟩)

/-- `decodeMetersBlob(data)`: the `catch` turns any throw into `null`. -/
def decodeMetersBlob (data : List Nat) : Option MetersResult :=
  match decodeMetersBlobRun data with
  | .ok r => r
  | .error _ => none

/-! ## Meter conversion and broadcast (lines 228-248, 672-744) -/

/-- `rawToDb(raw) = raw / 256.0`: 1/256 dB per unit. -/
def rawToDb (raw : Int) : ℚ := (raw : ℚ) / 256

/-- `dbToLevel(db, floorDb)`: 0 at or below the floor, 1 at or above
0 dB, linear in between. -/
def dbToLevel (db floorDb : ℚ) : ℚ :=
  if db ≤ floorDb then 0
  else if db ≥ 0 then 1
  else (db - floorDb) / -floorDb

/-- Floor used for FX return tiles. -/
def FX_METER_FLOOR_DB : ℚ := -60

/-- Floor used for Channel Button tiles. -/
def KEY_METER_FLOOR_DB : ℚ := -60

/-- Signal-present threshold, below both visual floors. -/
def SIGNAL_PRESENT_THRESHOLD_DB : ℚ := -80

/-- Empirical L/R sample-index pairs of FX returns 1..4 in the
`/meters/1` block. -/
def fxPairs : List (Nat × Nat) := [(18, 19), (20, 21), (22, 23), (24, 25)]

/-! ## Registry, effects and the WebSocket dispatcher (lines 256-289,
417-433, 498-565, 639-913, 994-1236)

Client-supplied JSON numbers are modelled as `Option Int` (indices) or
`Option ℚ` (fader values); `none` is a missing or non-numeric field
whose `Number(...)` coercion is `NaN`.  Outbound console datagrams and
client-facing sends are collected as a list of effects in program
order. -/

/-- One entry of the `channelTargets` registry:
`{ targetType: "ch", targetIndex, muted?, name? }`. -/
structure ChannelTarget where
  targetType : String
  targetIndex : Int
  muted : Option Bool := none
  name : Option String := none
deriving DecidableEq, Repr

/-- Observable outputs of the bridge: console queries/writes and
client-facing replies/broadcasts (`broadcastState` with a given `kind`,
`broadcastChannelState`, `ws.send`). -/
inductive Effect where
  | oscQuery (address : String)
  | oscSendF (address : String) (value : ℚ)
  | oscSendI (address : String) (value : Int)
  | wsWelcome
  | wsError (code : String) (message : String)
  | fxFader (fx : Int) (value : ℚ)
  | fxMute (fx : Int) (muted : Bool)
  | fxBus (fx : Int) (field : String) (assigned : Bool)
  | fxMeter (fx : Int) (level : ℚ) (signalPresent : Bool)
  | fxName (fx : Int) (name : String)
  | chMuted (targetIndex : Int) (muted : Bool)
  | chName (targetIndex : Int) (name : String)
  | chMeter (targetIndex : Int) (level : ℚ) (signalPresent : Bool)
deriving DecidableEq, Repr

/-- `String(n).padStart(2, '0')`. -/
def pad2 (n : Int) : String :=
  let s := toString n
  String.mk (List.replicate (2 - s.length) '0') ++ s

/-- `fxPath(fx, suffix)` = `/rtn/<fx>/<suffix>`. -/
def fxPath (fx : Int) (tail : String) : String :=
  "/rtn/" ++ toString fx ++ "/" ++ tail

/-- Channel address `/ch/<NN>/<suffix>` with 2-digit zero-padded index. -/
def chPath (idx : Int) (tail : String) : String :=
  "/ch/" ++ pad2 idx ++ "/" ++ tail

/-- `channelTargets.find(t => t.targetType === 'ch' && t.targetIndex === idx)`. -/
def findCh (reg : List ChannelTarget) (idx : Int) : Option ChannelTarget :=
  reg.find? (fun t => t.targetType == "ch" && t.targetIndex == idx)

/-- Mutate the `muted` field of the first matching registry entry (the JS
mutates the object returned by `find`); no entry is inserted. -/
def setChMuted : List ChannelTarget → Int → Bool → List ChannelTarget
  | [], _, _ => []
  | t :: ts, idx, m =>
    if t.targetType == "ch" && t.targetIndex == idx then
      { t with muted := some m } :: ts
    else t :: setChMuted ts idx m

/-- Mutate the `name` field of the first matching registry entry. -/
def setChName : List ChannelTarget → Int → String → List ChannelTarget
  | [], _, _ => []
  | t :: ts, idx, n =>
    if t.targetType == "ch" && t.targetIndex == idx then
      { t with name := some n } :: ts
    else t :: setChName ts idx n

/-- `pollFx(fx)`: six state queries for one FX return. -/
def pollFx (fx : Int) : List Effect :=
  [.oscQuery (fxPath fx "mix/fader"),
   .oscQuery (fxPath fx "mix/on"),
   .oscQuery ("/rtn/" ++ toString fx ++ "/config/name"),
   .oscQuery ("/rtn/" ++ toString fx ++ "/mix/01/grpon"),
   .oscQuery ("/rtn/" ++ toString fx ++ "/mix/03/grpon"),
   .oscQuery ("/rtn/" ++ toString fx ++ "/mix/05/grpon")]

/-- `pollAllFx()`: poll FX returns 1..4. -/
def pollAllFx : List Effect := pollFx 1 ++ pollFx 2 ++ pollFx 3 ++ pollFx 4

/-- `pollChannelTargets()`: mute + name queries for each registered
channel target with a valid index. -/
def pollChannelTargets (reg : List ChannelTarget) : List Effect :=
  reg.flatMap (fun t =>
    if t.targetType == "ch" && t.targetIndex ≥ 1 then
      [.oscQuery (chPath t.targetIndex "mix/on"),
       .oscQuery (chPath t.targetIndex "config/name")]
    else [])

/-- `msg.targetType || 'ch'` (missing or empty string is falsy). -/
def targetTypeOrCh (tt : Option String) : String :=
  match tt with
  | some s => if s = "" then "ch" else s
  | none => "ch"

/-- Client-to-bridge messages, one constructor per `msg.type` the
dispatcher distinguishes (wsProtocol.js constants plus the legacy
string types). -/
inductive WsMsg where
  | hello
  | requestFullState
  | logMsg
  | sync (fx : Option Int)
  | channelRegister (targetType : Option String) (targetIndex : Option Int)
  | channelToggleMute (targetType : Option String) (targetIndex : Option Int)
  | setFxFader (fxIndex : Option Int) (value : Option ℚ)
  | setFxMute (fxIndex : Option Int) (mute : Bool)
  | setFxBusAssignment (fxIndex : Option Int) (busIndex : Option Int) (assigned : Bool)
  | setChannelFader
  | setChannelMute
  | faderLegacy (fx : Option Int) (value : Option ℚ)
  | muteLegacy (fx : Option Int) (onFlag : Bool)
deriving DecidableEq, Repr

/-- The `isControlWrite` predicate exactly as the source lists it:
`setFxFader`, `setFxMute`, `setChannelFader`, `setChannelMute`,
legacy `fader`, legacy `mute`, and `channelToggleMute`.  (The source
does not include the bus-assignment message type.) -/
def isControlWrite : WsMsg → Bool
  | .setFxFader _ _ => true
  | .setFxMute _ _ => true
  | .setChannelFader => true
  | .setChannelMute => true
  | .faderLegacy _ _ => true
  | .muteLegacy _ _ => true
  | .channelToggleMute _ _ => true
  | _ => false

/-- The WebSocket message handler (`ws.on('message')` body after JSON
parsing): the safe-state gate followed by per-type dispatch.  Returns
the updated registry and the emitted effects in program order. -/
def handleWsMessage (lastSafeState : SafeState) (reg : List ChannelTarget)
    (msg : WsMsg) : List ChannelTarget × List Effect :=
  if isControlWrite msg && !maySendControl lastSafeState then
    (reg, [.wsError "SAFE_STATE_BLOCK"
      ("Control blocked while " ++ lastSafeState.str)])
  else
    match msg with
    | .hello => (reg, [.wsWelcome])
    | .requestFullState => (reg, pollAllFx ++ pollChannelTargets reg)
    | .logMsg => (reg, [])
    | .sync fx =>
      match fx with
      | some f => if 1 ≤ f ∧ f ≤ 4 then (reg, pollFx f) else (reg, pollAllFx)
      | none => (reg, pollAllFx)
    | .channelRegister tt idx =>
      match idx with
      | some i =>
        if targetTypeOrCh tt = "ch" ∧ 1 ≤ i then
          let reg1 :=
            match findCh reg i with
            | some _ => reg
            | none => reg ++ [{ targetType := "ch", targetIndex := i }]
          (reg1, [.oscQuery (chPath i "mix/on"),
                  .oscQuery (chPath i "config/name")])
        else (reg, [])
      | none => (reg, [])
    | .channelToggleMute tt idx =>
      match idx with
      | some i =>
        if targetTypeOrCh tt = "ch" ∧ 1 ≤ i then
          let found := findCh reg i
          let reg1 :=
            match found with
            | some _ => reg
            | none => reg ++ [{ targetType := "ch", targetIndex := i,
                                muted := some false }]
          let currentMuted :=
            match found with
            | some e => e.muted.getD false
            | none => false
          let nextMuted := !currentMuted
          let xrOn : Int := if nextMuted then 0 else 1
          (setChMuted reg1 i nextMuted,
           [.oscSendI (chPath i "mix/on") xrOn, .chMuted i nextMuted])
        else (reg, [])
      | none => (reg, [])
    | .setFxFader fxIndex value =>
      match fxIndex with
      | some fx =>
        if fx < 1 ∨ fx > 4 then (reg, [])
        else
          match value with
          | some v0 =>
            let v := if v0 < 0 then 0 else if v0 > 1 then 1 else v0
            (reg, [.oscSendF (fxPath fx "mix/fader") v, .fxFader fx v])
          | none => (reg, [])
      | none => (reg, [])
    | .setFxMute fxIndex mute =>
      match fxIndex with
      | some fx =>
        if fx < 1 ∨ fx > 4 then (reg, [])
        else
          let muted := mute
          let xrOn : Int := if muted then 0 else 1
          (reg, [.oscSendI (fxPath fx "mix/on") xrOn, .fxMute fx muted])
      | none => (reg, [])
    | .setFxBusAssignment fxIndex busIndex assigned =>
      match fxIndex with
      | some fx =>
        if fx < 1 ∨ fx > 4 then (reg, [])
        else
          match busIndex with
          | some bus =>
            if bus ≠ 1 ∧ bus ≠ 3 ∧ bus ≠ 5 then (reg, [])
            else
              let xrValue : Int := if assigned then 1 else 0
              let busPath := "/rtn/" ++ toString fx ++ "/mix/" ++ pad2 bus ++ "/grpon"
              let busField := if bus = 1 then "busA" else if bus = 3 then "busB" else "busC"
              (reg, [.oscSendI busPath xrValue, .fxBus fx busField assigned])
          | none => (reg, [])
      | none => (reg, [])
    | .setChannelFader => (reg, [])
    | .setChannelMute => (reg, [])
    | .faderLegacy fx value =>
      match fx with
      | some f =>
        if f = 0 then (reg, [])
        else
          match value with
          | some v0 =>
            let v := if v0 < 0 then 0 else if v0 > 1 then 1 else v0
            (reg, [.oscSendF (fxPath f "mix/fader") v, .fxFader f v])
          | none => (reg, [])
      | none => (reg, [])
    | .muteLegacy fx onFlag =>
      match fx with
      | some f =>
        if f = 0 then (reg, [])
        else
          let muted := onFlag
          let xrOn : Int := if muted then 0 else 1
          (reg, [.oscSendI (fxPath f "mix/on") xrOn, .fxMute f muted])
      | none => (reg, [])

/-! ## Console-reply branches of `handleOscPacket` (lines 672-913)

The regex address routing and the `Number(args[0].value)` coercion of
the first reply argument are taken as inputs; each branch below embeds
the body that runs once the address has matched. -/

/-- Reply `/rtn/<fx>/mix/on <raw>`: `muted = (raw === 0)` is broadcast. -/
def handleRtnMixOnReply (fx : Int) (raw : ℚ) : List Effect :=
  if fx < 1 ∨ fx > 4 then []
  else [.fxMute fx (raw == 0)]

/-- Reply `/ch/<NN>/mix/on <raw>`: `muted = (raw === 0)` is stored on the
matching registry entry (if any) and broadcast. -/
def handleChMixOnReply (reg : List ChannelTarget) (chIndex : Int) (raw : ℚ) :
    List ChannelTarget × List Effect :=
  if 1 ≤ chIndex then
    let muted := (raw == 0)
    (setChMuted reg chIndex muted, [.chMuted chIndex muted])
  else (reg, [])

/-- Reply `/ch/<NN>/config/name <name>` (`name` already coerced and
trimmed): stored on the matching registry entry (if any) and broadcast. -/
def handleChNameReply (reg : List ChannelTarget) (chIndex : Int) (name : String) :
    List ChannelTarget × List Effect :=
  if 1 ≤ chIndex then (setChName reg chIndex name, [.chName chIndex name])
  else (reg, [])

/-- One FX return's meter broadcast from the `/meters/1` samples: take
the max of the stereo pair, convert through the FX floor, and flag
signal presence against the deeper threshold. -/
def fxMeterEffect (values : List Int) (n : Nat) (pair : Nat × Nat) :
    Option Effect :=
  if pair.1 ≥ values.length then none
  else
    let rawL := values.getD pair.1 0
    let raw := if pair.2 < values.length then max rawL (values.getD pair.2 0)
               else rawL
    let db := rawToDb raw
    let level := dbToLevel db FX_METER_FLOOR_DB
    some (.fxMeter ((n : Int) + 1) level (db > SIGNAL_PRESENT_THRESHOLD_DB))

/-- One registered channel target's meter broadcast from the `/meters/1`
samples (`ch k` reads sample `k - 1`), converted through the channel
floor. -/
def chMeterEffect (values : List Int) (t : ChannelTarget) : Option Effect :=
  if t.targetType == "ch" && t.targetIndex ≥ 1 then
    let meterIndex := t.targetIndex - 1
    if meterIndex < 0 ∨ meterIndex ≥ (values.length : Int) then none
    else
      let raw := values.getD meterIndex.toNat 0
      let db := rawToDb raw
      let level := dbToLevel db KEY_METER_FLOOR_DB
      some (.chMeter t.targetIndex level (db > SIGNAL_PRESENT_THRESHOLD_DB))
  else none

/-- The `/meters/1` broadcast pass: FX pairs first, then registered
channel targets. -/
def handleMetersValues (values : List Int) (reg : List ChannelTarget) :
    List Effect :=
  (fxPairs.enum.filterMap (fun p => fxMeterEffect values p.1 p.2)) ++
    reg.filterMap (fun t => chMeterEffect values t)

/-! ## Codec helper lemmas -/

lemma align4_mod (n : Nat) : align4 n % 4 = 0 := by
  simp only [align4, pad4]
  split <;> omega

lemma align4_ge_four (n : Nat) (h : 1 ≤ n) : 4 ≤ align4 n := by
  simp only [align4, pad4]
  split <;> omega

lemma align4_add_left (a b : Nat) (h : a % 4 = 0) :
    align4 (a + b) = a + align4 b := by
  simp only [align4, pad4]
  have h2 : (a + b) % 4 = b % 4 := by omega
  rw [h2]
  split <;> omega

lemma oscString_length (s : List Nat) :
    (oscString s).length = align4 (s.length + 1) := by
  simp [oscString, align4]
  omega

lemma oscString_length_mod (s : List Nat) : (oscString s).length % 4 = 0 := by
  rw [oscString_length]
  exact align4_mod _

lemma oscString_length_ge (s : List Nat) : 4 ≤ (oscString s).length := by
  rw [oscString_length]
  exact align4_ge_four _ (by omega)

lemma takeWhile_append_nul (s t : List Nat) (h : ∀ b ∈ s, b ≠ 0) :
    (s ++ 0 :: t).takeWhile (fun b => b != 0) = s := by
  induction s with
  | nil => simp
  | cons a as ih =>
    have ha : (a != 0) = true := by simpa using h a (by simp)
    simp [List.takeWhile_cons, ha]
    exact ih (fun b hb => h b (by simp [hb]))

lemma byteAt_isSome_of_lt (buf : List Nat) (i : Nat) (h : i < buf.length) :
    ∃ b, byteAt buf i = some b :=
  ⟨buf.get ⟨i, h⟩, List.get?_eq_get h⟩

lemma byteAt_append_right (pre l : List Nat) (i : Nat) :
    byteAt (pre ++ l) (pre.length + i) = byteAt l i := by
  simp [byteAt,
    List.getElem?_append_right (show pre.length ≤ pre.length + i by omega)]

lemma readWord32BE_isSome (buf : List Nat) (off : Nat)
    (h : off + 3 < buf.length) : ∃ w, readWord32BE buf off = some w := by
  obtain ⟨a, ha⟩ := byteAt_isSome_of_lt buf off (by omega)
  obtain ⟨b, hb⟩ := byteAt_isSome_of_lt buf (off + 1) (by omega)
  obtain ⟨c, hc⟩ := byteAt_isSome_of_lt buf (off + 2) (by omega)
  obtain ⟨d, hd⟩ := byteAt_isSome_of_lt buf (off + 3) h
  unfold readWord32BE
  rw [ha, hb, hc, hd]
  exact ⟨_, rfl⟩

lemma readWord32BE_append (pre l : List Nat) :
    readWord32BE (pre ++ l) pre.length = readWord32BE l 0 := by
  have h0 : byteAt (pre ++ l) pre.length = byteAt l 0 := by
    simpa using byteAt_append_right pre l 0
  have h1 : byteAt (pre ++ l) (pre.length + 1) = byteAt l 1 :=
    byteAt_append_right pre l 1
  have h2 : byteAt (pre ++ l) (pre.length + 2) = byteAt l 2 :=
    byteAt_append_right pre l 2
  have h3 : byteAt (pre ++ l) (pre.length + 3) = byteAt l 3 :=
    byteAt_append_right pre l 3
  unfold readWord32BE
  rw [h0, h1, h2, h3]

lemma readWord32BE_word32Bytes (w : Nat) (rest : List Nat) :
    readWord32BE (word32BytesBE w ++ rest) 0 = some (w % 2 ^ 32) := by
  simp [readWord32BE, word32BytesBE, byteAt]
  omega

lemma word32BytesBE_length (w : Nat) : (word32BytesBE w).length = 4 := rfl

lemma int32ToWord_lt (n : Int) : int32ToWord n < 2 ^ 32 := by
  unfold int32ToWord
  omega

lemma int32OfWord_int32ToWord (n : Int) (h1 : -(2 ^ 31) ≤ n)
    (h2 : n < 2 ^ 31) : int32OfWord (int32ToWord n) = n := by
  unfold int32OfWord int32ToWord
  omega

lemma readStringAt_append_osc (pre s rest : List Nat)
    (hnul : ∀ b ∈ s, b ≠ 0) (hlow : ∀ b ∈ s, b < 128)
    (hpre : pre.length % 4 = 0) :
    readStringAt (pre ++ (oscString s ++ rest)) pre.length
      = (s, pre.length + (oscString s).length) := by
  unfold readStringAt
  have hdrop : (pre ++ (oscString s ++ rest)).drop pre.length
      = oscString s ++ rest := List.drop_left pre _
  have hshape : oscString s ++ rest
      = s ++ (0 :: (List.replicate (pad4 (s.length + 1)) 0 ++ rest)) := by
    simp [oscString]
  have htake : ((pre ++ (oscString s ++ rest)).drop pre.length).takeWhile
      (fun b => b != 0) = s := by
    rw [hdrop, hshape, takeWhile_append_nul _ _ hnul]
  rw [htake]
  have hmap : s.map (· % 128) = s := by
    have h1 : s.map (· % 128) = s.map id :=
      List.map_congr_left (fun b hb => Nat.mod_eq_of_lt (hlow b hb))
    simpa using h1
  have hoff : align4 (pre.length + s.length + 1)
      = pre.length + (oscString s).length := by
    have h1 : pre.length + s.length + 1 = pre.length + (s.length + 1) := by omega
    rw [h1, align4_add_left _ _ hpre, ← oscString_length]
  simp only [hmap, hoff]

lemma argMatches_tag (t : Nat) (v : OscVal) (h : argMatches t v = true) :
    t = 102 ∨ t = 105 ∨ t = 115 := by
  cases v <;> simp [argMatches] at h <;> tauto

lemma argsMatch_tags (types : List Nat) (values : List OscVal)
    (h : argsMatch types values = true) :
    ∀ t ∈ types, t = 102 ∨ t = 105 ∨ t = 115 := by
  induction types generalizing values with
  | nil => intro t ht; simp at ht
  | cons t0 ts ih =>
    cases values with
    | nil => simp [argsMatch] at h
    | cons v vs =>
      have h2 : argMatches t0 v = true ∧ argsMatch ts vs = true := by
        simpa [argsMatch] using h
      intro t ht
      rcases List.mem_cons.mp ht with rfl | ht2
      · exact argMatches_tag t v h2.1
      · exact ih vs h2.2 t ht2

lemma decodeArgs_encodeArgs :
    ∀ (types : List Nat) (values : List OscVal) (pre : List Nat),
      pre.length % 4 = 0 → argsMatch types values = true →
      decodeArgs (pre ++ encodeArgs types values) types pre.length = .ok values := by
  intro types
  induction types with
  | nil =>
    intro values pre hpre hm
    cases values with
    | nil => simp [encodeArgs, decodeArgs]
    | cons v vs => simp [argsMatch] at hm
  | cons t ts ih =>
    intro values pre hpre hm
    cases values with
    | nil => simp [argsMatch] at hm
    | cons v vs =>
      have hm1 : argMatches t v = true ∧ argsMatch ts vs = true := by
        simpa [argsMatch] using hm
      obtain ⟨h1, h2⟩ := hm1
      cases v with
      | float bits =>
        obtain ⟨⟨ht, hlt⟩, hfal⟩ : (t = 102 ∧ bits < 2 ^ 32)
            ∧ jsFalsyFloatBits bits = false := by
          simpa [argMatches] using h1
        subst ht
        have hlt2 : bits % 2 ^ 32 = bits := Nat.mod_eq_of_lt hlt
        have henc : encodeArgs (102 :: ts) (OscVal.float bits :: vs)
            = word32BytesBE bits ++ encodeArgs ts vs := by
          simp only [encodeArgs, encodeArg, jsFloatWriteBits, hfal,
            List.head?_cons, List.tail_cons, if_pos rfl, Bool.false_eq_true,
            if_false, if_true, eq_self_iff_true, hlt2]
        rw [henc]
        have hlen : ¬pre.length + 4
            > (pre ++ (word32BytesBE bits ++ encodeArgs ts vs)).length := by
          simp only [List.length_append, word32BytesBE_length]
          omega
        have hread : readWord32BE
            (pre ++ (word32BytesBE bits ++ encodeArgs ts vs)) pre.length
            = some bits := by
          rw [readWord32BE_append, readWord32BE_word32Bytes, hlt2]
        have hrec : decodeArgs (pre ++ (word32BytesBE bits ++ encodeArgs ts vs))
            ts (pre.length + 4) = .ok vs := by
          have hassoc : pre ++ (word32BytesBE bits ++ encodeArgs ts vs)
              = (pre ++ word32BytesBE bits) ++ encodeArgs ts vs := by
            simp [List.append_assoc]
          have hlen2 : pre.length + 4 = (pre ++ word32BytesBE bits).length := by
            simp only [List.length_append, word32BytesBE_length]
          rw [hassoc, hlen2]
          exact ih vs (pre ++ word32BytesBE bits)
            (by simp only [List.length_append, word32BytesBE_length]; omega) h2
        simp [decodeArgs, hlen, hread, hrec, Except.map, word32BytesBE_length]
      | int n =>
        obtain ⟨ht, hlo, hhi⟩ : t = 105 ∧ -(2 ^ 31) ≤ n ∧ n < 2 ^ 31 := by
          simpa [argMatches] using h1
        subst ht
        have henc : encodeArgs (105 :: ts) (OscVal.int n :: vs)
            = word32BytesBE (int32ToWord n) ++ encodeArgs ts vs := by
          simp [encodeArgs, encodeArg]
        rw [henc]
        have hlen : ¬pre.length + 4
            > (pre ++ (word32BytesBE (int32ToWord n) ++ encodeArgs ts vs)).length := by
          simp only [List.length_append, word32BytesBE_length]
          omega
        have hread : readWord32BE
            (pre ++ (word32BytesBE (int32ToWord n) ++ encodeArgs ts vs)) pre.length
            = some (int32ToWord n) := by
          rw [readWord32BE_append, readWord32BE_word32Bytes,
            Nat.mod_eq_of_lt (int32ToWord_lt n)]
        have hrec : decodeArgs
            (pre ++ (word32BytesBE (int32ToWord n) ++ encodeArgs ts vs))
            ts (pre.length + 4) = .ok vs := by
          have hassoc : pre ++ (word32BytesBE (int32ToWord n) ++ encodeArgs ts vs)
              = (pre ++ word32BytesBE (int32ToWord n)) ++ encodeArgs ts vs := by
            simp [List.append_assoc]
          have hlen2 : pre.length + 4
              = (pre ++ word32BytesBE (int32ToWord n)).length := by
            simp only [List.length_append, word32BytesBE_length]
          rw [hassoc, hlen2]
          exact ih vs (pre ++ word32BytesBE (int32ToWord n))
            (by simp only [List.length_append, word32BytesBE_length]; omega) h2
        simp [decodeArgs, hlen, hread, hrec,
          int32OfWord_int32ToWord n hlo hhi, Except.map, word32BytesBE_length]
      | str s =>
        obtain ⟨ht, hall⟩ : t = 115 ∧ ∀ b ∈ s, b ≠ 0 ∧ b < 128 := by
          simpa [argMatches, List.all_eq_true] using h1
        subst ht
        have henc : encodeArgs (115 :: ts) (OscVal.str s :: vs)
            = oscString s ++ encodeArgs ts vs := by
          simp [encodeArgs, encodeArg]
        rw [henc]
        have htake : (oscString s ++ encodeArgs ts vs).takeWhile
            (fun b => b != 0) = s := by
          have hshape : oscString s ++ encodeArgs ts vs = s ++
              (0 :: (List.replicate (pad4 (s.length + 1)) 0 ++ encodeArgs ts vs)) := by
            simp [oscString]
          rw [hshape, takeWhile_append_nul _ _ (fun b hb => (hall b hb).1)]
        have hmap : s.map (· % 128) = s := by
          have h3 : s.map (· % 128) = s.map id :=
            List.map_congr_left (fun b hb => Nat.mod_eq_of_lt (hall b hb).2)
          simpa using h3
        have hoff : align4 (pre.length + s.length + 1)
            = (pre ++ oscString s).length := by
          have h3 : pre.length + s.length + 1 = pre.length + (s.length + 1) := by
            omega
          rw [h3, align4_add_left _ _ hpre, ← oscString_length]
          simp
        have hrec : decodeArgs (pre ++ (oscString s ++ encodeArgs ts vs))
            ts (pre.length + (oscString s).length) = .ok vs := by
          have hassoc : pre ++ (oscString s ++ encodeArgs ts vs)
              = (pre ++ oscString s) ++ encodeArgs ts vs := by
            simp [List.append_assoc]
          have hlen3 : pre.length + (oscString s).length
              = (pre ++ oscString s).length := by
            simp only [List.length_append]
          rw [hassoc, hlen3]
          exact ih vs (pre ++ oscString s)
            (by simp [Nat.add_mod, hpre, oscString_length_mod]) h2
        simp [decodeArgs, htake, hmap, hoff, hrec, Except.map]
      | blob b => simp [argMatches] at h1

/-! ## Claim about the codec round trip (C3) -/

/-- C3: for every nonempty NUL-free 7-bit address, every type tag built
from the supported characters `f`/`i`/`s` (the empty tag included), and
every matching argument list (float bit patterns other than `-0.0`/NaN,
32-bit ints, NUL-free 7-bit strings), decoding the encoding reproduces
the same address and the same typed argument list exactly. -/
theorem c3_codec_round_trip (address types : List Nat) (values : List OscVal)
    (haddr_ne : address ≠ []) (haddr : ∀ b ∈ address, b ≠ 0 ∧ b < 128)
    (hm : argsMatch types values = true) :
    decodeOscMessage (encodeOscMessage address types values)
      = .ok (some ⟨address, values⟩) := by
  have htags := argsMatch_tags types values hm
  have hbuf : encodeOscMessage address types values
      = oscString address
        ++ (oscString (44 :: types) ++ encodeArgs types values) := by
    simp [encodeOscMessage, List.append_assoc]
  rw [hbuf]
  have hread1 : readStringAt (oscString address
      ++ (oscString (44 :: types) ++ encodeArgs types values)) 0
      = (address, (oscString address).length) := by
    have h := readStringAt_append_osc [] address
      (oscString (44 :: types) ++ encodeArgs types values)
      (fun b hb => (haddr b hb).1) (fun b hb => (haddr b hb).2) (by simp)
    simpa using h
  have hnul44 : ∀ b ∈ 44 :: types, b ≠ 0 := by
    intro b hb
    rcases List.mem_cons.mp hb with rfl | hb2
    · decide
    · rcases htags b hb2 with h | h | h <;> subst h <;> decide
  have hlow44 : ∀ b ∈ 44 :: types, b < 128 := by
    intro b hb
    rcases List.mem_cons.mp hb with rfl | hb2
    · decide
    · rcases htags b hb2 with h | h | h <;> subst h <;> decide
  have hread2 : readStringAt (oscString address
      ++ (oscString (44 :: types) ++ encodeArgs types values))
      (oscString address).length
      = (44 :: types,
         (oscString address).length + (oscString (44 :: types)).length) :=
    readStringAt_append_osc (oscString address) (44 :: types)
      (encodeArgs types values) hnul44 hlow44 (oscString_length_mod address)
  have hlen4 : ¬(oscString address
      ++ (oscString (44 :: types) ++ encodeArgs types values)).length < 4 := by
    have h1 := oscString_length_ge address
    simp only [List.length_append]
    omega
  have hoffkeep : ¬(oscString address).length ≥ (oscString address
      ++ (oscString (44 :: types) ++ encodeArgs types values)).length := by
    have h1 := oscString_length_ge (44 :: types)
    simp only [List.length_append]
    omega
  have hargs : decodeArgs (oscString address
      ++ (oscString (44 :: types) ++ encodeArgs types values)) types
      ((oscString address).length + (oscString (44 :: types)).length)
      = .ok values := by
    have h := decodeArgs_encodeArgs types values
      (oscString address ++ oscString (44 :: types))
      (by have h1 := oscString_length_mod address
          have h2 := oscString_length_mod (44 :: types)
          rw [List.length_append]
          omega)
      hm
    have hassoc : (oscString address ++ oscString (44 :: types))
        ++ encodeArgs types values
        = oscString address
          ++ (oscString (44 :: types) ++ encodeArgs types values) := by
      simp [List.append_assoc]
    have hlen3 : (oscString address ++ oscString (44 :: types)).length
        = (oscString address).length + (oscString (44 :: types)).length := by
      simp only [List.length_append]
    rw [hassoc, hlen3] at h
    exact h
  unfold decodeOscMessage
  rw [if_neg hlen4]
  simp only [hread1]
  rw [if_neg haddr_ne, if_neg hoffkeep]
  simp only [hread2]
  have hcond : ¬((44 :: types) = [] ∨ (44 :: types).head? ≠ some 44) := by
    simp
  rw [if_neg hcond]
  simp only [List.tail_cons]
  rw [hargs]
  rfl

/-- Witness for `c3_codec_round_trip`: the message `/a` with tag `fis`
and arguments `1.0f` (pattern 0x3F800000), `-2`, `"hi"` round-trips. -/
theorem c3_codec_round_trip_witness :
    argsMatch [102, 105, 115]
      [.float 1065353216, .int (-2), .str [104, 105]] = true
    ∧ decodeOscMessage (encodeOscMessage [47, 97] [102, 105, 115]
        [.float 1065353216, .int (-2), .str [104, 105]])
      = .ok (some ⟨[47, 97],
          [.float 1065353216, .int (-2), .str [104, 105]]⟩) := by
  refine ⟨by decide, ?_⟩
  exact c3_codec_round_trip [47, 97] [102, 105, 115]
    [.float 1065353216, .int (-2), .str [104, 105]]
    (by decide) (by decide) (by decide)

/-! ## Claim about decoder totality and memory safety (C4) -/

lemma decodeArgs_ok (buf : List Nat) :
    ∀ (types : List Nat) (off : Nat), ∃ args, decodeArgs buf types off = .ok args := by
  intro types
  induction types with
  | nil => intro off; exact ⟨[], rfl⟩
  | cons t ts ih =>
    intro off
    by_cases hf : t = 102
    · by_cases hb : off + 4 > buf.length
      · exact ⟨[], by simp [decodeArgs, hf, hb]⟩
      · obtain ⟨w, hw⟩ := readWord32BE_isSome buf off (by omega)
        obtain ⟨args, hargs⟩ := ih (off + 4)
        exact ⟨.float w :: args, by simp [decodeArgs, hf, hb, hw, hargs, Except.map]⟩
    · by_cases hi : t = 105
      · by_cases hb : off + 4 > buf.length
        · exact ⟨[], by simp [decodeArgs, hf, hi, hb]⟩
        · obtain ⟨w, hw⟩ := readWord32BE_isSome buf off (by omega)
          obtain ⟨args, hargs⟩ := ih (off + 4)
          exact ⟨.int (int32OfWord w) :: args,
            by simp [decodeArgs, hf, hi, hb, hw, hargs, Except.map]⟩
      · by_cases hs : t = 115
        · obtain ⟨args, hargs⟩ :=
            ih (align4 (off + ((buf.drop off).takeWhile (fun b => b != 0)).length + 1))
          exact ⟨.str (((buf.drop off).takeWhile (fun b => b != 0)).map (· % 128)) :: args,
            by simp [decodeArgs, hf, hi, hs, hargs, Except.map]⟩
        · by_cases hblob : t = 98
          · by_cases hb : off + 4 > buf.length
            · exact ⟨[], by simp [decodeArgs, hf, hi, hs, hblob, hb]⟩
            · obtain ⟨w, hw⟩ := readWord32BE_isSome buf off (by omega)
              by_cases hsz : int32OfWord w < 0
                  ∨ (off + 4 : Int) + int32OfWord w > buf.length
              · exact ⟨[], by simp [decodeArgs, hf, hi, hs, hblob, hb, hw, hsz]⟩
              · obtain ⟨args, hargs⟩ := ih (align4 (off + 4 + (int32OfWord w).toNat))
                exact ⟨.blob ((buf.drop (off + 4)).take (int32OfWord w).toNat) :: args,
                  by simp [decodeArgs, hf, hi, hs, hblob, hb, hw, hsz, hargs, Except.map]⟩
          · by_cases hb : off + 4 > buf.length
            · exact ⟨[], by simp [decodeArgs, hf, hi, hs, hblob, hb]⟩
            · obtain ⟨args, hargs⟩ := ih (off + 4)
              exact ⟨args, by simp [decodeArgs, hf, hi, hs, hblob, hb, hargs]⟩

/-- C4: `decodeOscMessage` is total and memory-safe on every input byte
buffer: it always returns `.ok` — `null` or a decoded message — and never
reaches the `.error` that marks an out-of-bounds buffer read (a Node
`readFloatBE`/`readInt32BE` throw).  Truncated buffers, unknown type-tag
characters (consumed as 4-byte chunks) and negative or oversized
blob-length fields all fall into guarded `break` paths that keep
whatever was safely parsed. -/
theorem c4_decode_never_faults (buf : List Nat) :
    ∃ r, decodeOscMessage buf = .ok r := by
  by_cases h4 : buf.length < 4
  · exact ⟨none, by simp [decodeOscMessage, h4]⟩
  · unfold decodeOscMessage
    simp only [h4, if_false]
    by_cases haddr : (readStringAt buf 0).1 = []
    · exact ⟨none, by simp [haddr]⟩
    · simp only [haddr, if_false]
      by_cases hoff : (readStringAt buf 0).2 ≥ buf.length
      · exact ⟨some ⟨(readStringAt buf 0).1, []⟩, by simp [hoff]⟩
      · simp only [hoff, if_false]
        by_cases htag : (readStringAt buf (readStringAt buf 0).2).1 = []
            ∨ (readStringAt buf (readStringAt buf 0).2).1.head? ≠ some 44
        · exact ⟨some ⟨(readStringAt buf 0).1, []⟩, by simp [htag]⟩
        · simp only [htag, if_false]
          obtain ⟨args, hargs⟩ := decodeArgs_ok buf
            (readStringAt buf (readStringAt buf 0).2).1.tail
            (readStringAt buf (readStringAt buf 0).2).2
          exact ⟨some ⟨(readStringAt buf 0).1, args⟩, by simp [hargs, Except.map]⟩

/-! ## Claim about meter blob decoding (C5) -/

lemma readInt16LE_isSome (buf : List Nat) (off : Nat)
    (h : off + 1 < buf.length) : ∃ v, readInt16LE buf off = some v := by
  obtain ⟨lo, hlo⟩ := byteAt_isSome_of_lt buf off (by omega)
  obtain ⟨hi, hhi⟩ := byteAt_isSome_of_lt buf (off + 1) h
  unfold readInt16LE
  rw [hlo, hhi]
  exact ⟨_, rfl⟩

lemma readInt32LE_isSome (buf : List Nat) (off : Nat)
    (h : off + 3 < buf.length) : ∃ v, readInt32LE buf off = some v := by
  obtain ⟨a, ha⟩ := byteAt_isSome_of_lt buf off (by omega)
  obtain ⟨b, hb⟩ := byteAt_isSome_of_lt buf (off + 1) (by omega)
  obtain ⟨c, hc⟩ := byteAt_isSome_of_lt buf (off + 2) (by omega)
  obtain ⟨d, hd⟩ := byteAt_isSome_of_lt buf (off + 3) h
  unfold readInt32LE
  rw [ha, hb, hc, hd]
  exact ⟨_, rfl⟩

lemma readSamples_isSome (data : List Nat) :
    ∀ (k i : Nat), (∀ j, j < k → 4 + (i + j) * 2 + 1 < data.length) →
      ∃ out, readSamples data i k = some out ∧ out.length = k := by
  intro k
  induction k with
  | zero => intro i _; exact ⟨[], rfl, rfl⟩
  | succ k ih =>
    intro i h
    obtain ⟨v, hv⟩ := readInt16LE_isSome data (4 + i * 2)
      (by have := h 0 (by omega); omega)
    obtain ⟨out, hout, hlen⟩ := ih (i + 1)
      (fun j hj => by have := h (j + 1) (by omega); omega)
    refine ⟨v :: out, ?_, by simp [hlen]⟩
    rw [readSamples, hv, hout]

/-- C5: `decodeMetersBlob` never faults — its body performs no
out-of-bounds buffer read (so the `catch` is dead and nothing is ever
read past the end of the buffer) — it returns `null` for any buffer
below the 4-byte header, and any successful decode carries exactly
`slotCount` samples with `slotCount` at most the declared count, at most
the samples physically present, and at most the hard cap 4096, all read
from inside the buffer. -/
theorem c5_meters_decode_bounds (data : List Nat) :
    (∃ r, decodeMetersBlobRun data = .ok r)
    ∧ (data.length < 4 → decodeMetersBlob data = none)
    ∧ (∀ m, decodeMetersBlob data = some m →
        m.values.length = m.slotCount
        ∧ m.slotCount ≤ 4096
        ∧ (m.slotCount : Int) ≤ m.count
        ∧ m.slotCount ≤ (data.length - 4) / 2
        ∧ 4 + 2 * m.slotCount ≤ data.length) := by
  by_cases h4 : data.length < 4
  · refine ⟨⟨none, by simp [decodeMetersBlobRun, h4]⟩, fun _ => ?_, fun m hm => ?_⟩
    · simp [decodeMetersBlob, decodeMetersBlobRun, h4]
    · simp [decodeMetersBlob, decodeMetersBlobRun, h4] at hm
  · obtain ⟨count, hcount⟩ := readInt32LE_isSome data 0 (by omega)
    by_cases hpos : count ≤ 0
    · refine ⟨⟨none, ?_⟩, fun h => absurd h h4, fun m hm => ?_⟩
      · simp [decodeMetersBlobRun, h4, hcount, hpos]
      · simp [decodeMetersBlob, decodeMetersBlobRun, h4, hcount, hpos] at hm
    · set available : Int := (((data.length - 4) / 2 : Nat) : Int) with havail
      set slotCount : Int := min count available with hslot
      by_cases hsc : slotCount ≤ 0
      · refine ⟨⟨none, ?_⟩, fun h => absurd h h4, fun m hm => ?_⟩
        · simp [decodeMetersBlobRun, h4, hcount, hpos, ← havail, ← hslot, hsc]
        · simp [decodeMetersBlob, decodeMetersBlobRun, h4, hcount, hpos,
            ← havail, ← hslot, hsc] at hm
      · set capped : Nat := (min slotCount 4096).toNat with hcapped
        have hcap_le : capped ≤ 4096 := by omega
        have hcap_avail : (capped : Int) ≤ available := by omega
        have hcap_count : (capped : Int) ≤ count := by omega
        have hcap_len : 4 + 2 * capped ≤ data.length := by
          have : (capped : Int) ≤ ((data.length - 4) / 2 : Nat) := hcap_avail
          omega
        obtain ⟨values, hvals, hvlen⟩ := readSamples_isSome data capped 0
          (fun j hj => by omega)
        have hrun : decodeMetersBlobRun data
            = .ok (some ⟨count, capped, values⟩) := by
          simp [decodeMetersBlobRun, h4, hcount, hpos, ← havail, ← hslot, hsc,
            ← hcapped, hvals]
        refine ⟨⟨_, hrun⟩, fun h => absurd h h4, fun m hm => ?_⟩
        have hm2 : MetersResult.mk count capped values = m := by
          simpa [decodeMetersBlob, hrun] using hm
        subst hm2
        refine ⟨hvlen, hcap_le, hcap_count, ?_, hcap_len⟩
        show capped ≤ (data.length - 4) / 2
        have hc2 : (capped : Int) ≤ (((data.length - 4) / 2 : Nat) : Int) :=
          havail ▸ hcap_avail
        exact_mod_cast hc2

/-- Witness for `c5_meters_decode_bounds`: a 2-byte buffer decodes to
`null`, and a blob declaring 5 samples while carrying 1 never faults. -/
theorem c5_meters_decode_bounds_witness :
    decodeMetersBlob [1, 0] = none
    ∧ (∃ r, decodeMetersBlobRun [5, 0, 0, 0, 7, 0] = .ok r) :=
  ⟨(c5_meters_decode_bounds [1, 0]).2.1 (by decide),
   (c5_meters_decode_bounds [5, 0, 0, 0, 7, 0]).1⟩

/-! ## Claims about the liveness model (C2, C10) -/

/-- C10: before any console packet has been received both timestamps are
still 0, which the ternary treats as an infinitely old receipt, so the
derived state is OFFLINE at every current time — never LIVE or STALE. -/
theorem c10_initial_state_offline :
    ∀ now : Int, computeSafeState now 0 0 = .OFFLINE := by
  intro now
  rfl

/-- C2: once both timestamps are nonzero, the derived state is exactly
characterised by the two ages: OFFLINE iff the OSC age reached 4000 ms
(with priority over everything), LIVE iff not OFFLINE and both the OSC
age and the meters age are within 1500 ms, and STALE in every remaining
case. -/
theorem c2_safe_state_characterisation (now tOsc tMet : Int)
    (hO : tOsc ≠ 0) (hM : tMet ≠ 0) :
    (computeSafeState now tOsc tMet = .OFFLINE ↔ 4000 ≤ now - tOsc)
    ∧ (computeSafeState now tOsc tMet = .LIVE ↔
        (¬4000 ≤ now - tOsc ∧ now - tOsc ≤ 1500 ∧ now - tMet ≤ 1500))
    ∧ (computeSafeState now tOsc tMet = .STALE ↔
        (¬4000 ≤ now - tOsc ∧ ¬(now - tOsc ≤ 1500 ∧ now - tMet ≤ 1500))) := by
  unfold computeSafeState ageOf ageGe ageLe OSC_OFFLINE_MS OSC_LIVE_MS METERS_LIVE_MS
  simp only [if_neg hO, if_neg hM]
  refine ⟨?_, ?_, ?_⟩ <;> split_ifs <;> simp_all

/-- Witness for `c2_safe_state_characterisation` at a concrete instant:
timestamps 98000/96000 at time 100000 give STALE. -/
theorem c2_safe_state_characterisation_witness :
    computeSafeState 100000 98000 96000 = .STALE := by
  exact (c2_safe_state_characterisation 100000 98000 96000 (by decide)
    (by decide)).2.2.mpr (by constructor <;> omega)

/-! ## Claims about gating and mute polarity (C1, C7) -/

/-- C1 counter-evidence: a bus-assignment set received while the state is
STALE is *not* gated — `isControlWrite` omits the bus-assignment message
type, so the dispatcher issues the console write `/rtn/1/mix/01/grpon 1`
and the optimistic echo, and sends no `SAFE_STATE_BLOCK` error.  The
other gated kinds (FX fader, FX mute, channel mute toggle) are blocked
at the same state, and handshake / full-state / registration proceed. -/
theorem c1_bus_assignment_write_not_gated :
    handleWsMessage .STALE [] (.setFxBusAssignment (some 1) (some 1) true)
      = ([], [.oscSendI "/rtn/1/mix/01/grpon" 1, .fxBus 1 "busA" true])
    ∧ isControlWrite (.setFxBusAssignment (some 1) (some 1) true) = false
    ∧ handleWsMessage .STALE [] (.setFxFader (some 1) (some 1))
      = ([], [.wsError "SAFE_STATE_BLOCK" "Control blocked while STALE"])
    ∧ handleWsMessage .STALE [] (.setFxMute (some 1) true)
      = ([], [.wsError "SAFE_STATE_BLOCK" "Control blocked while STALE"])
    ∧ handleWsMessage .STALE [] (.channelToggleMute none (some 1))
      = ([], [.wsError "SAFE_STATE_BLOCK" "Control blocked while STALE"])
    ∧ handleWsMessage .STALE [] .hello = ([], [.wsWelcome]) := by
  refine ⟨rfl, rfl, rfl, rfl, rfl, rfl⟩

/-- C7: mute polarity is inverted on both directions.  An accepted FX
mute-set writes console integer 0 for `muted = true` and 1 for
`muted = false`; a decoded `/rtn/N/mix/on` or `/ch/NN/mix/on` reply of 1
is broadcast as `muted = false` and a reply of 0 as `muted = true`. -/
theorem c7_mute_polarity :
    (∀ (st : SafeState) (reg : List ChannelTarget) (fx : Int) (muted : Bool),
      1 ≤ fx → fx ≤ 4 → maySendControl st = true →
      handleWsMessage st reg (.setFxMute (some fx) muted)
        = (reg, [.oscSendI (fxPath fx "mix/on") (if muted then 0 else 1),
                 .fxMute fx muted]))
    ∧ (∀ fx : Int, 1 ≤ fx → fx ≤ 4 →
        handleRtnMixOnReply fx 1 = [.fxMute fx false]
        ∧ handleRtnMixOnReply fx 0 = [.fxMute fx true])
    ∧ (∀ (reg : List ChannelTarget) (idx : Int), 1 ≤ idx →
        handleChMixOnReply reg idx 1
          = (setChMuted reg idx false, [.chMuted idx false])
        ∧ handleChMixOnReply reg idx 0
          = (setChMuted reg idx true, [.chMuted idx true])) := by
  refine ⟨?_, ?_, ?_⟩
  · intro st reg fx muted h1 h4 hms
    have hrange : ¬(fx < 1 ∨ fx > 4) := by omega
    simp [handleWsMessage, isControlWrite, hms, hrange]
  · intro fx h1 h4
    have hrange : ¬(fx < 1 ∨ fx > 4) := by omega
    constructor <;> simp [handleRtnMixOnReply, hrange]
  · intro reg idx h1
    have e1 : ((1 : ℚ) == 0) = false := by decide
    have e0 : ((0 : ℚ) == 0) = true := by decide
    constructor <;> simp [handleChMixOnReply, h1, e1, e0]

/-- Witness for `c7_mute_polarity` at FX 2 / channel 3 in the LIVE state. -/
theorem c7_mute_polarity_witness :
    handleWsMessage .LIVE [] (.setFxMute (some 2) true)
      = ([], [.oscSendI (fxPath 2 "mix/on") 0, .fxMute 2 true])
    ∧ handleRtnMixOnReply 2 1 = [.fxMute 2 false]
    ∧ handleChMixOnReply [] 3 0 = ([], [.chMuted 3 true]) := by
  refine ⟨?_, ?_, ?_⟩
  · exact c7_mute_polarity.1 .LIVE [] 2 true (by decide) (by decide) (by decide)
  · exact (c7_mute_polarity.2.1 2 (by decide) (by decide)).1
  · exact (c7_mute_polarity.2.2 [] 3 (by decide)).2

/-! ## Claim about the two meter floors (C8) -/

/-- C8 counter-evidence: the two per-context floor constants exist and
are used for FX and channel meters respectively, but they are both
-60 dB — the FX floor is *not* strictly deeper than the channel floor. -/
theorem c8_meter_floors_equal :
    FX_METER_FLOOR_DB = -60 ∧ KEY_METER_FLOOR_DB = -60
    ∧ FX_METER_FLOOR_DB = KEY_METER_FLOOR_DB
    ∧ ¬FX_METER_FLOOR_DB < KEY_METER_FLOOR_DB := by
  refine ⟨rfl, rfl, rfl, by decide⟩

/-! ## Claim about registry idempotence (C9) -/

/-- The identifying key of a registry entry. -/
def chKeys (reg : List ChannelTarget) : List (String × Int) :=
  reg.map (fun t => (t.targetType, t.targetIndex))

lemma chKeys_setChMuted (reg : List ChannelTarget) (idx : Int) (m : Bool) :
    chKeys (setChMuted reg idx m) = chKeys reg := by
  induction reg with
  | nil => rfl
  | cons t ts ih =>
    simp only [setChMuted, chKeys, List.map_cons]
    split
    · rfl
    · simpa [chKeys] using ih

lemma chKeys_setChName (reg : List ChannelTarget) (idx : Int) (nm : String) :
    chKeys (setChName reg idx nm) = chKeys reg := by
  induction reg with
  | nil => rfl
  | cons t ts ih =>
    simp only [setChName, chKeys, List.map_cons]
    split
    · rfl
    · simpa [chKeys] using ih

lemma findCh_eq_none_iff (reg : List ChannelTarget) (idx : Int) :
    findCh reg idx = none ↔
      ∀ t ∈ reg, ¬(t.targetType = "ch" ∧ t.targetIndex = idx) := by
  rw [findCh, List.find?_eq_none]
  constructor
  · intro h t ht hc
    have := h t ht
    simp [hc.1, hc.2] at this
  · intro h t ht hb
    simp only [Bool.and_eq_true, beq_iff_eq] at hb
    exact h t ht hb

lemma nodup_chKeys_append (reg : List ChannelTarget) (e : ChannelTarget)
    (he : e.targetType = "ch") (hf : findCh reg e.targetIndex = none)
    (hn : (chKeys reg).Nodup) : (chKeys (reg ++ [e])).Nodup := by
  have hmem : (e.targetType, e.targetIndex) ∉ chKeys reg := by
    intro hmem
    rcases List.mem_map.mp hmem with ⟨t, ht, hkey⟩
    have hne := (findCh_eq_none_iff reg e.targetIndex).mp hf t ht
    refine hne ⟨?_, ?_⟩
    · rw [← he]; exact congrArg Prod.fst hkey
    · exact congrArg Prod.snd hkey
  have hsplit : chKeys (reg ++ [e]) = chKeys reg ++ [(e.targetType, e.targetIndex)] := by
    simp [chKeys]
  rw [hsplit, List.nodup_append]
  refine ⟨hn, List.nodup_singleton _, ?_⟩
  intro a ha hb
  simp only [List.mem_singleton] at hb
  exact hmem (hb ▸ ha)

/-- C9: channel registration is idempotent and the registry never gains a
duplicate `(targetType, targetIndex)` key.  A `channelRegister` for a
valid index issues the one-shot mute and name queries in every case,
leaves the registry unchanged when the index is already present, and
appends exactly one fresh entry otherwise; `channelToggleMute` (the
other inserting operation) and the in-place reply updates preserve
key-uniqueness as well. -/
theorem c9_registration_idempotent :
    (∀ (st : SafeState) (reg : List ChannelTarget) (tt : Option String) (idx : Int),
      1 ≤ idx → targetTypeOrCh tt = "ch" →
      (handleWsMessage st reg (.channelRegister tt (some idx))).2
          = [.oscQuery (chPath idx "mix/on"), .oscQuery (chPath idx "config/name")]
        ∧ ((findCh reg idx).isSome →
            (handleWsMessage st reg (.channelRegister tt (some idx))).1 = reg)
        ∧ (findCh reg idx = none →
            (handleWsMessage st reg (.channelRegister tt (some idx))).1
              = reg ++ [{ targetType := "ch", targetIndex := idx }])
        ∧ ((chKeys reg).Nodup →
            (chKeys (handleWsMessage st reg (.channelRegister tt (some idx))).1).Nodup))
    ∧ (∀ (st : SafeState) (reg : List ChannelTarget) (tt : Option String)
        (oidx : Option Int), (chKeys reg).Nodup →
        (chKeys (handleWsMessage st reg (.channelToggleMute tt oidx)).1).Nodup)
    ∧ (∀ (reg : List ChannelTarget) (idx : Int) (m : Bool) (nm : String),
        (chKeys reg).Nodup →
        (chKeys (setChMuted reg idx m)).Nodup ∧ (chKeys (setChName reg idx nm)).Nodup) := by
  refine ⟨?_, ?_, ?_⟩
  · intro st reg tt idx h1 htt
    refine ⟨?_, ?_, ?_, ?_⟩
    · simp [handleWsMessage, isControlWrite, htt, h1]
    · intro hsome
      rcases Option.isSome_iff_exists.mp hsome with ⟨e, he⟩
      simp [handleWsMessage, isControlWrite, htt, h1, he]
    · intro hnone
      simp [handleWsMessage, isControlWrite, htt, h1, hnone]
    · intro hn
      match hf : findCh reg idx with
      | some e => simpa [handleWsMessage, isControlWrite, htt, h1, hf] using hn
      | none =>
        have := nodup_chKeys_append reg
          { targetType := "ch", targetIndex := idx } rfl hf hn
        simpa [handleWsMessage, isControlWrite, htt, h1, hf] using this
  · intro st reg tt oidx hn
    by_cases hgate : (isControlWrite (.channelToggleMute tt oidx)
        && !maySendControl st) = true
    · simpa [handleWsMessage, hgate] using hn
    · match oidx with
      | none => simpa [handleWsMessage, hgate] using hn
      | some i =>
        by_cases hv : targetTypeOrCh tt = "ch" ∧ 1 ≤ i
        · match hf : findCh reg i with
          | some e =>
            simpa [handleWsMessage, hgate, hv.1, hv.2, hf, chKeys_setChMuted]
              using hn
          | none =>
            have := nodup_chKeys_append reg
              { targetType := "ch", targetIndex := i, muted := some false }
              rfl hf hn
            simpa [handleWsMessage, hgate, hv.1, hv.2, hf, chKeys_setChMuted]
              using this
        · simpa [handleWsMessage, hgate, hv] using hn
  · intro reg idx m nm hn
    exact ⟨by rwa [chKeys_setChMuted], by rwa [chKeys_setChName]⟩

/-- Witness for `c9_registration_idempotent`: registering channel 5 on an
empty registry appends one entry and issues the two queries. -/
theorem c9_registration_idempotent_witness :
    (handleWsMessage .OFFLINE [] (.channelRegister none (some 5))).1
      = [{ targetType := "ch", targetIndex := 5 }]
    ∧ (handleWsMessage .OFFLINE [] (.channelRegister none (some 5))).2
      = [.oscQuery "/ch/05/mix/on", .oscQuery "/ch/05/config/name"] := by
  have h := c9_registration_idempotent.1 .OFFLINE [] none 5 (by decide) (by decide)
  exact ⟨(h.2.2.1 rfl).trans (by decide), h.1.trans (by decide)⟩

/-! ## Claim about the one-shot STALE recovery (C6) -/

lemma recRun_stale_no_timer (evs : List RecEv) :
    ∀ st : RecoverySt, st.lastSafeState = .STALE →
      st.staleRecoveryTimer = none → staysStale evs →
      (recRun st evs).2 = 0 := by
  induction evs with
  | nil => intro st _ _ _; rfl
  | cons e es ih =>
    intro st hst htimer hstays
    rcases hstays e (by simp) with he | he <;> subst he
    · have hstep : updateSafeState st .STALE = st := by
        simp [updateSafeState, hst]
      simp only [recRun, recStep, hstep]
      simpa using ih st hst htimer (fun x hx => hstays x (by simp [hx]))
    · have hstep : recoveryTimerFire st = (st, false) := by
        simp [recoveryTimerFire, htimer]
      simp only [recRun, recStep, hstep]
      simpa using ih st hst htimer (fun x hx => hstays x (by simp [hx]))

lemma recRun_stale_at_most_once (evs : List RecEv) :
    ∀ st : RecoverySt, st.lastSafeState = .STALE → staysStale evs →
      (recRun st evs).2 ≤ 1 := by
  induction evs with
  | nil => intro st _ _; exact Nat.zero_le 1
  | cons e es ih =>
    intro st hst hstays
    have hrest : staysStale es := fun x hx => hstays x (by simp [hx])
    rcases hstays e (by simp) with he | he <;> subst he
    · have hstep : updateSafeState st .STALE = st := by
        simp [updateSafeState, hst]
      simp only [recRun, recStep, hstep]
      simpa using ih st hst hrest
    · match htimer : st.staleRecoveryTimer with
      | none =>
        have hstep : recoveryTimerFire st = (st, false) := by
          simp [recoveryTimerFire, htimer]
        simp only [recRun, recStep, hstep]
        simpa using ih st hst hrest
      | some d =>
        have hstep : recoveryTimerFire st
            = ({ st with staleRecoveryTimer := none }, true) := by
          simp [recoveryTimerFire, htimer, hst]
        simp only [recRun, recStep, hstep]
        have hzero := recRun_stale_no_timer es
          { st with staleRecoveryTimer := none } (by simpa using hst) rfl hrest
        simp [hzero]

/-- C6: the recovery action runs at most once per STALE episode.  The
timer is scheduled with a 250 ms debounce exactly on a transition into
STALE (a recomputation that stays STALE is a no-op, and the per-episode
guard blocks rescheduling); the callback acts only while still STALE;
guard and timer are reset exactly on a transition to LIVE or OFFLINE;
within any event run that stays STALE the action fires at most once; and
two STALE episodes separated by LIVE (or OFFLINE) each get exactly one
recovery attempt. -/
theorem c6_one_shot_stale_recovery :
    (∀ st : RecoverySt, st.lastSafeState = .STALE →
      recStep st (.update .STALE) = (st, false))
    ∧ (∀ st : RecoverySt, st.lastSafeState ≠ .STALE →
        st.staleRecoveryAttempted = false →
        updateSafeState st .STALE
          = { lastSafeState := .STALE, staleRecoveryAttempted := true,
              staleRecoveryTimer := some 250 })
    ∧ (∀ st : RecoverySt, st.lastSafeState ≠ .STALE →
        st.staleRecoveryAttempted = true →
        updateSafeState st .STALE = { st with lastSafeState := .STALE })
    ∧ (∀ st : RecoverySt, (recoveryTimerFire st).2 = true →
        st.staleRecoveryTimer ≠ none ∧ st.lastSafeState = .STALE)
    ∧ (∀ (st : RecoverySt) (next : SafeState), next ≠ st.lastSafeState →
        (next = .LIVE ∨ next = .OFFLINE) →
        (updateSafeState st next).staleRecoveryAttempted = false
          ∧ (updateSafeState st next).staleRecoveryTimer = none)
    ∧ (∀ (st : RecoverySt) (evs : List RecEv), st.lastSafeState = .STALE →
        staysStale evs → (recRun st evs).2 ≤ 1)
    ∧ (recRun initialRecoverySt
        [.update .STALE, .fire, .update .LIVE, .update .STALE, .fire]).2 = 2
    ∧ (recRun initialRecoverySt
        [.update .STALE, .fire, .update .OFFLINE, .update .STALE, .fire]).2 = 2 := by
  refine ⟨?_, ?_, ?_, ?_, ?_, ?_, by decide, by decide⟩
  · intro st hst
    simp [recStep, updateSafeState, hst]
  · intro st hst hatt
    simp [updateSafeState, Ne.symm hst, scheduleStaleRecoveryOnce, hatt]
  · intro st hst hatt
    simp [updateSafeState, Ne.symm hst, scheduleStaleRecoveryOnce, hatt]
  · intro st hfire
    match htimer : st.staleRecoveryTimer with
    | none => simp [recoveryTimerFire, htimer] at hfire
    | some d =>
      refine ⟨by simp [htimer], ?_⟩
      by_cases hst : st.lastSafeState = .STALE
      · exact hst
      · simp [recoveryTimerFire, htimer, hst] at hfire
  · intro st next hne hcase
    have hnotstale : next ≠ .STALE := by
      rcases hcase with h | h <;> subst h <;> decide
    simp [updateSafeState, hne, hnotstale, resetStaleRecoveryState]
  · intro st evs hst hstays
    exact recRun_stale_at_most_once evs st hst hstays

/-- Witness for `c6_one_shot_stale_recovery`: from a freshly entered
STALE episode (guard set, 250 ms timer pending), a fire followed by a
stale recomputation and another fire yields exactly one recovery run. -/
theorem c6_one_shot_stale_recovery_witness :
    (recRun { lastSafeState := .STALE, staleRecoveryAttempted := true,
              staleRecoveryTimer := some 250 }
        [.fire, .update .STALE, .fire]).2 ≤ 1 := by
  exact c6_one_shot_stale_recovery.2.2.2.2.2.1
    { lastSafeState := .STALE, staleRecoveryAttempted := true,
      staleRecoveryTimer := some 250 } [.fire, .update .STALE, .fire] rfl
    (by intro e he; fin_cases he <;> simp)

end XrDock
